import Mathlib

/-!
Shallow embedding of the convex-audit component (`src/component/lib.ts` over
the table declared in `src/component/schema.ts`).

Modelling conventions:
* Document ids are `Nat`; a `Store` keeps the `auditEvents` table as a list in
  insertion (creation) order together with the next fresh id, so list position
  agrees with ascending `_creationTime` / `_id` order.
* `Date.now()` is passed explicitly as a `now : Nat` argument to every handler
  that reads it (all times are milliseconds since the epoch, as in the source).
* `v.record(v.string(), v.any())` values are association lists over a small
  JSON-like value universe `JVal`; the handlers never inspect the values.
* JavaScript truthiness tests on optional strings (`if (args.idempotencyKey)`,
  `if (args.organizationId)`, `args.actorType && args.actorId`) are modelled by
  `strTruthy`, which is `false` exactly on `undefined` and on `""`.
* An index range scan is the stable ascending sort (by `occurredAt`) of the
  events matching the equality prefix of the index; since the store list is in
  `_id` order and `List.insertionSort` is stable, this is exactly the index
  order (index key, then `_id`).  `.order("desc")` reverses it.
* `ctx.db.patch` on a missing id faults in the host, so `updateEvent` returns
  an `Option Store` (`none` = fault).
-/

/-- JSON-like values stored in `v.any()` record fields; the component code
treats them opaquely. -/
inductive JVal where
  | jnull : JVal
  | jbool : Bool → JVal
  | jnum : Int → JVal
  | jstr : String → JVal
deriving DecidableEq, Repr

/-- A `v.record(v.string(), v.any())` value, as a key/value association list
in JavaScript object key order. -/
abbrev JRec := List (String × JVal)

/-- The `actorTypeValidator` union of literals from `schema.ts`. -/
inductive ActorType where
  | user : ActorType
  | system : ActorType
  | apiKey : ActorType
  | service : ActorType
deriving DecidableEq, Repr

/-- The string literal an `ActorType` denotes in the schema. -/
def ActorType.key : ActorType → String
  | .user => "user"
  | .system => "system"
  | .apiKey => "api_key"
  | .service => "service"

/-- `actorValidator` from `schema.ts`. -/
structure Actor where
  type : ActorType
  id : String
  name : Option String := none
  email : Option String := none
  metadata : Option JRec := none
deriving DecidableEq, Repr

/-- `targetValidator` from `schema.ts`. -/
structure Target where
  type : String
  id : String
  name : Option String := none
  metadata : Option JRec := none
deriving DecidableEq, Repr

/-- The `geoLocation` object inside `contextValidator` (numeric coordinates
abstracted to `Int`; no handler reads them). -/
structure GeoLocation where
  city : Option String := none
  country : Option String := none
  countryCode : Option String := none
  region : Option String := none
  latitude : Option Int := none
  longitude : Option Int := none
deriving DecidableEq, Repr

/-- `contextValidator` from `schema.ts`. -/
structure EventContext where
  location : Option String := none
  userAgent : Option String := none
  geoLocation : Option GeoLocation := none
  requestId : Option String := none
  sessionId : Option String := none
deriving DecidableEq, Repr

/-- The `result` union of literals from `schema.ts`. -/
inductive AuditResult where
  | success : AuditResult
  | failure : AuditResult
  | pending : AuditResult
deriving DecidableEq, Repr

/-- The string literal an `AuditResult` denotes. -/
def AuditResult.key : AuditResult → String
  | .success => "success"
  | .failure => "failure"
  | .pending => "pending"

/-- The `error` object from `schema.ts`. -/
structure ErrInfo where
  code : Option String := none
  message : Option String := none
deriving DecidableEq, Repr

/-- A stored `auditEvents` document (`auditEventValidator` plus the system
field `_id`, here `id : Nat`). -/
structure Event where
  id : Nat
  action : String
  occurredAt : Nat
  actor : Actor
  targets : List Target
  context : Option EventContext := none
  metadata : Option JRec := none
  organizationId : Option String := none
  idempotencyKey : Option String := none
  result : Option AuditResult := none
  error : Option ErrInfo := none
  tags : Option (List String) := none
  version : Option Nat := none
deriving DecidableEq, Repr

/-- The database: the `auditEvents` table in insertion (creation) order, plus
the next fresh document id. -/
structure Store where
  events : List Event := []
  nextId : Nat := 0
deriving DecidableEq, Repr

/-- Well-formedness every reachable store satisfies: distinct ids, all below
the fresh-id counter. -/
def Store.WF (s : Store) : Prop :=
  (s.events.map Event.id).Nodup ∧ ∀ e ∈ s.events, e.id < s.nextId

instance (s : Store) : Decidable s.WF := by
  unfold Store.WF; infer_instance

/-- JavaScript truthiness of an optional string argument: `undefined` and the
empty string are falsy. -/
def strTruthy : Option String → Bool
  | none => false
  | some s => !(s == "")

/-- Index order for a `by_*_and_occurredAt` range scan: stable ascending sort
by `occurredAt` of the events matching the equality prefix, which (the store
being in `_id` order) is the index order `(occurredAt, _id)` ascending. -/
def indexScan (l : List Event) : List Event :=
  l.insertionSort (fun a b => a.occurredAt ≤ b.occurredAt)

/-- `ctx.db.delete(id)`: remove the document with the given id. -/
def dbDelete (s : Store) (i : Nat) : Store :=
  { s with events := s.events.filter (fun e => !(e.id == i)) }

/-- The `by_idempotencyKey` index lookup followed by `.first()`: the first
event (in `_id` order, all key fields tied) whose `idempotencyKey` equals the
argument. -/
def idemFirst (s : Store) (k : Option String) : Option Event :=
  s.events.find? (fun e => e.idempotencyKey == k)

/-- Arguments of the `log` mutation. -/
structure LogArgs where
  action : String
  actor : Actor
  targets : List Target
  context : Option EventContext := none
  metadata : Option JRec := none
  organizationId : Option String := none
  occurredAt : Option Nat := none
  idempotencyKey : Option String := none
  result : Option AuditResult := none
  error : Option ErrInfo := none
  tags : Option (List String) := none
  version : Option Nat := none
deriving DecidableEq, Repr

/-- Return value of `log`. -/
structure LogResult where
  eventId : Nat
  created : Bool
deriving DecidableEq, Repr

/-- The `log` mutation handler (`lib.ts`): idempotency check when the key is
truthy, otherwise insert with the documented defaults. -/
def log (s : Store) (a : LogArgs) (now : Nat) : LogResult × Store :=
  let existing := if strTruthy a.idempotencyKey then idemFirst s a.idempotencyKey else none
  match existing with
  | some e => ({ eventId := e.id, created := false }, s)
  | none =>
    let occurredAt := a.occurredAt.getD now
    let ev : Event :=
      { id := s.nextId
        action := a.action
        actor := a.actor
        targets := a.targets
        context := a.context
        metadata := a.metadata
        organizationId := a.organizationId
        occurredAt := occurredAt
        idempotencyKey := a.idempotencyKey
        result := some (a.result.getD .success)
        error := a.error
        tags := a.tags
        version := some (a.version.getD 1) }
    ({ eventId := s.nextId, created := true },
     { events := s.events ++ [ev], nextId := s.nextId + 1 })

/-- The `logBatch` mutation handler: the per-event body of its loop is
identical to `log`'s handler, applied sequentially, results in input order. -/
def logBatch (s : Store) (evs : List LogArgs) (now : Nat) : List LogResult × Store :=
  match evs with
  | [] => ([], s)
  | a :: t =>
    let r := log s a now
    let rest := logBatch r.2 t now
    (r.1 :: rest.1, rest.2)

/-- The `get` query handler: direct lookup by id. -/
def get (s : Store) (eventId : Nat) : Option Event :=
  s.events.find? (fun e => e.id == eventId)

/-- Arguments of the `list` query. -/
structure ListArgs where
  organizationId : Option String := none
  action : Option String := none
  actorId : Option String := none
  actorType : Option String := none
  startTime : Option Nat := none
  endTime : Option Nat := none
  limit : Option Nat := none
  cursor : Option Nat := none
deriving DecidableEq, Repr

/-- Return value of `list`. -/
structure ListResult where
  events : List Event
  nextCursor : Option Nat
  hasMore : Bool
deriving DecidableEq, Repr

/-- The `list` query handler: index selection by truthiness of
`organizationId`, then `action`, then `actorType && actorId`, else a full
table scan in creation order; `.order("desc")`; take `limit + 1` and peek. -/
def list (s : Store) (a : ListArgs) (now : Nat) : ListResult :=
  let limit := a.limit.getD 50
  let startTime := a.startTime.getD 0
  let endTime := a.endTime.getD (now + 1000 * 60 * 60 * 24)
  let scanned :=
    if strTruthy a.organizationId then
      indexScan (s.events.filter (fun e =>
        e.organizationId == a.organizationId &&
        startTime ≤ e.occurredAt && e.occurredAt ≤ endTime))
    else if strTruthy a.action then
      indexScan (s.events.filter (fun e =>
        some e.action == a.action &&
        startTime ≤ e.occurredAt && e.occurredAt ≤ endTime))
    else if strTruthy a.actorType && strTruthy a.actorId then
      indexScan (s.events.filter (fun e =>
        some e.actor.type.key == a.actorType && some e.actor.id == a.actorId &&
        startTime ≤ e.occurredAt && e.occurredAt ≤ endTime))
    else
      s.events
  let events := scanned.reverse.take (limit + 1)
  let hasMore := decide (events.length > limit)
  let resultEvents := if hasMore then events.take limit else events
  let nextCursor := if hasMore then resultEvents.getLast?.map Event.id else none
  { events := resultEvents, nextCursor := nextCursor, hasMore := hasMore }

/-- The `listByActor` query handler. -/
def listByActor (s : Store) (actorType actorId : String)
    (startTime endTime limit : Option Nat) (now : Nat) : List Event :=
  let lim := limit.getD 50
  let st := startTime.getD 0
  let et := endTime.getD (now + 1000 * 60 * 60 * 24)
  ((indexScan (s.events.filter (fun e =>
      e.actor.type.key == actorType && e.actor.id == actorId &&
      st ≤ e.occurredAt && e.occurredAt ≤ et))).reverse).take lim

/-- One step of JavaScript object assignment: set key `kv.1` to `kv.2`,
updating it in place if present, appending it otherwise. -/
def setPair {α : Type} : List (String × α) → String × α → List (String × α)
  | [], kv => [kv]
  | (k, v) :: t, kv => if k == kv.1 then (k, kv.2) :: t else (k, v) :: setPair t kv

/-- JavaScript spread merge `\x7b...a, ...b\x7d`: start from `a`, assign each
entry of `b` in order. -/
def jsMerge {α : Type} (a b : List (String × α)) : List (String × α) :=
  b.foldl setPair a

/-- First-match lookup in an association list (JavaScript property read). -/
def lookupA {α : Type} : List (String × α) → String → Option α
  | [], _ => none
  | (k, v) :: t, q => if k == q then some v else lookupA t q

/-- `m[k] = (m[k] ?? 0) + 1` on a counter object. -/
def bump : List (String × Nat) → String → List (String × Nat)
  | [], k => [(k, 1)]
  | (k2, v) :: t, k => if k2 == k then (k2, v + 1) :: t else (k2, v) :: bump t k

/-- Sum of the values of a counter object. -/
def sumVals (m : List (String × Nat)) : Nat :=
  (m.map Prod.snd).sum

/-- Arguments of the `getStats` query. -/
structure StatsArgs where
  organizationId : Option String := none
  startTime : Option Nat := none
  endTime : Option Nat := none
deriving DecidableEq, Repr

/-- Return value of `getStats`. -/
structure Stats where
  totalEvents : Nat
  eventsByAction : List (String × Nat)
  eventsByActorType : List (String × Nat)
  eventsByResult : List (String × Nat)
deriving DecidableEq, Repr

/-- The events `getStats` aggregates over: the organization-time index scan
when `organizationId` is truthy, otherwise the whole table post-filtered by
the window in memory. -/
def statsEvents (s : Store) (a : StatsArgs) (now : Nat) : List Event :=
  let startTime := a.startTime.getD (now - 30 * 24 * 60 * 60 * 1000)
  let endTime := a.endTime.getD now
  if strTruthy a.organizationId then
    indexScan (s.events.filter (fun e =>
      e.organizationId == a.organizationId &&
      startTime ≤ e.occurredAt && e.occurredAt ≤ endTime))
  else
    s.events.filter (fun e => startTime ≤ e.occurredAt && e.occurredAt ≤ endTime)

/-- The `getStats` query handler: one pass over the scanned events
accumulating a total and three frequency maps. -/
def getStats (s : Store) (a : StatsArgs) (now : Nat) : Stats :=
  let evs := statsEvents s a now
  { totalEvents := evs.length
    eventsByAction := evs.foldl (fun m e => bump m e.action) []
    eventsByActorType := evs.foldl (fun m e => bump m e.actor.type.key) []
    eventsByResult := evs.foldl (fun m e => bump m (e.result.getD .success).key) [] }

/-- Arguments of the `deleteOldEvents` internal mutation. -/
structure DeleteArgs where
  olderThan : Nat
  organizationId : Option String := none
  batchSize : Option Nat := none
deriving DecidableEq, Repr

/-- Return value of `deleteOldEvents`. -/
structure DeleteResult where
  deleted : Nat
  hasMore : Bool
deriving DecidableEq, Repr

/-- The `deleteOldEvents` internal mutation handler: scoped branch fetches
`batchSize + 1` matching candidates from the organization-time index;
unscoped branch fetches `batchSize + 1` records in creation order and filters
by the time predicate in memory; then deletes and peeks for `hasMore`. -/
def deleteOldEvents (s : Store) (a : DeleteArgs) : DeleteResult × Store :=
  let batchSize := a.batchSize.getD 100
  let events :=
    if strTruthy a.organizationId then
      (indexScan (s.events.filter (fun e =>
        e.organizationId == a.organizationId &&
        e.occurredAt < a.olderThan))).take (batchSize + 1)
    else
      s.events.take (batchSize + 1)
  let toDelete :=
    if strTruthy a.organizationId then
      events.take batchSize
    else
      (events.filter (fun e => e.occurredAt < a.olderThan)).take batchSize
  let s2 := toDelete.foldl (fun st ev => dbDelete st ev.id) s
  ({ deleted := toDelete.length, hasMore := decide (events.length > batchSize) }, s2)

/-- The `updateEvent` internal mutation handler: shallow-merge `metadata`
(when supplied and the event exists), replace `tags` wholesale when supplied,
patch only when some update was recorded (`none` models the host fault of
patching a missing id). -/
def updateEvent (s : Store) (eventId : Nat) (metadata : Option JRec)
    (tags : Option (List String)) : Option Store :=
  let mdUpdate : Option JRec :=
    match metadata with
    | none => none
    | some m =>
      match get s eventId with
      | some existing => some (jsMerge (existing.metadata.getD []) m)
      | none => none
  if mdUpdate.isNone && tags.isNone then
    some s
  else
    match get s eventId with
    | none => none
    | some _ =>
      some { s with
        events := s.events.map (fun e =>
          if e.id == eventId then
            { e with
              metadata := match mdUpdate with | some m => some m | none => e.metadata
              tags := match tags with | some t => some t | none => e.tags }
          else e) }

/-! Concrete fixtures used by counterexamples and witnesses. -/

/-- Fixture actor (type "user", id "u1"). -/
def actorU : Actor := { type := .user, id := "u1" }

/-- Fixture log arguments with an explicit occurrence time. -/
def mkArgs (act : String) (t : Nat) : LogArgs :=
  { action := act, actor := actorU, targets := [], occurredAt := some t }

/-- Store obtained by logging an event at time 1 and then one at time 2. -/
def sAsc : Store := (log (log {} (mkArgs "a.one" 1) 0).2 (mkArgs "b.two" 2) 0).2

/-- Store obtained by logging an event at time 2000 and then one at time 1000
(insertion order opposite to occurredAt order). -/
def sDesc : Store := (log (log {} (mkArgs "a.one" 2000) 0).2 (mkArgs "b.two" 1000) 0).2

/-- Store with a single event whose action is "b.two". -/
def sOne : Store := (log {} (mkArgs "b.two" 5) 0).2

/-- Store with a single event occurring just beyond 24 hours in the future. -/
def sFuture : Store := (log {} (mkArgs "x.y" 86400001) 0).2

/-- Store with a single event at time 100 for the C6 witness. -/
def sNear : Store := (log {} (mkArgs "x.y" 100) 0).2

/-- The document the log into sNear produced. -/
def eNear : Event :=
  { id := 0, action := "x.y", occurredAt := 100, actor := actorU, targets := []
    result := some .success, version := some 1 }

/-- C2: feeding the returned nextCursor back into list is supposed to advance
the page, but the handler never reads its cursor argument: with two stored
events and limit 1, the first page has hasMore true and nextCursor the id of
its last event, yet calling list again with that cursor returns the very same
page, so repetition never reaches hasMore false and the older event is never
returned. -/
theorem C2_list_cursor_ignored :
    (list sAsc { limit := some 1 } 0).hasMore = true ∧
    (list sAsc { limit := some 1 } 0).nextCursor = some 1 ∧
    (list sAsc { limit := some 1 } 0).events.map Event.id = [1] ∧
    list sAsc { limit := some 1, cursor := some 1 } 0 = list sAsc { limit := some 1 } 0 :=
  ⟨rfl, rfl, rfl, rfl⟩

/-- C3 counterexample: logging occurredAt 2000 then occurredAt 1000 makes the
no-filter list return occurredAt order [1000, 2000] (descending creation
order), which is not strictly descending occurredAt. -/
theorem C3_counterexample :
    (list sDesc {} 0).events.map Event.occurredAt = [1000, 2000] ∧
    ¬ (list sDesc {} 0).events.Pairwise (fun x y => y.occurredAt < x.occurredAt) := by
  exact ⟨rfl, by decide⟩

/-- C3 (amended): the no-filter branch of list scans in creation order and
reverses, so when the events were inserted in strictly increasing occurredAt
order the result is strictly descending by occurredAt; in general the order
is descending insertion order, not occurredAt order. -/
theorem C3_list_noFilter_desc (s : Store) (a : ListArgs) (now : Nat)
    (horg : a.organizationId = none) (hact : a.action = none) (hty : a.actorType = none)
    (hinc : s.events.Pairwise (fun x y => x.occurredAt < y.occurredAt)) :
    (list s a now).events.Pairwise (fun x y => y.occurredAt < x.occurredAt) := by
  have hrev : s.events.reverse.Pairwise (fun x y => y.occurredAt < x.occurredAt) := by
    rw [List.pairwise_reverse]; exact hinc
  have htake : ∀ n : Nat,
      (s.events.reverse.take n).Pairwise (fun x y => y.occurredAt < x.occurredAt) :=
    fun n => List.Pairwise.sublist (List.take_sublist n _) hrev
  simp only [list, horg, hact, hty, strTruthy, Bool.false_and, Bool.false_eq_true,
    if_false]
  split
  · rw [List.take_take]
    exact htake _
  · exact htake _

/-- Witness for C3 (amended) at a concrete increasing store. -/
theorem C3_list_noFilter_desc_witness :
    sAsc.events.Pairwise (fun x y => x.occurredAt < y.occurredAt) ∧
    (list sAsc {} 0).events.Pairwise (fun x y => y.occurredAt < x.occurredAt) :=
  ⟨by decide, C3_list_noFilter_desc sAsc {} 0 rfl rfl rfl (by decide)⟩

/-- C4 counterexample: with an empty-string organizationId supplied alongside
an action filter, list uses the action index (the empty string is falsy), so
the result differs from list with only that organizationId, refuting the
claim for every supplied organizationId. -/
theorem C4_counterexample :
    ¬ (list sOne { organizationId := some "", action := some "a.one" } 10
        = list sOne { organizationId := some "" } 10) := by
  decide

/-- C4 (amended): precedence applies to truthy (non-empty) filter values: when
the supplied organizationId is non-empty, the action, actorId and actorType
filters do not constrain the result at all — list returns exactly what it
returns with only that organizationId and the same time bounds, limit and
cursor. -/
theorem C4_list_org_precedence (s : Store) (a : ListArgs) (now : Nat)
    (h : strTruthy a.organizationId = true) :
    list s a now = list s { a with action := none, actorId := none, actorType := none } now := by
  simp only [list, h, if_true]

/-- Witness for C4 (amended) with a non-empty organizationId and an action
filter supplied alongside it. -/
theorem C4_list_org_precedence_witness :
    strTruthy (some "org_1") = true ∧
    list sOne { organizationId := some "org_1", action := some "a.one" } 10
      = list sOne { organizationId := some "org_1" } 10 :=
  ⟨rfl, C4_list_org_precedence sOne
    { organizationId := some "org_1", action := some "a.one" } 10 rfl⟩

/-- C6 counterexample: an event 24 hours plus one millisecond in the future
matches the actor filters and has occurredAt at least startTime, yet
listByActor with endTime omitted (called at now = 0) excludes it, because the
default end bound is now + 24h, not a far-future sentinel. -/
theorem C6_counterexample :
    listByActor sFuture "user" "u1" none none none 0 = [] ∧
    sFuture.events.map (fun e => (e.actor.type.key, e.actor.id, e.occurredAt))
      = [("user", "u1", 86400001)] :=
  ⟨rfl, rfl⟩

/-- Helper: an event in the page list returns lies in the scanned list the
chosen branch produced (the page is a take of the reversed scan). -/
theorem mem_scanned_of_mem_page {scanned : List Event} {limit : Nat} {e : Event}
    (he : e ∈ (if decide ((scanned.reverse.take (limit + 1)).length > limit) = true
        then (scanned.reverse.take (limit + 1)).take limit
        else scanned.reverse.take (limit + 1))) :
    e ∈ scanned := by
  split at he
  · exact List.mem_reverse.mp (List.mem_of_mem_take (List.mem_of_mem_take he))
  · exact List.mem_reverse.mp (List.mem_of_mem_take he)

/-- C6 (amended): when endTime is omitted, list and listByActor default the
upper bound of the range to now + 24 hours (1000*60*60*24 ms), not an
unbounded far-future sentinel: each call behaves exactly as if that endTime
had been passed; in listByActor and in the indexed branches of list (truthy
organizationId, action, or actorType and actorId) every returned event has
occurredAt at most that bound; the no-filter branch of list applies no time
bound at all — startTime and endTime are ignored entirely there, so every
event remains eligible regardless of occurredAt. -/
theorem C6_endTime_default (s : Store) (now : Nat) :
    (∀ ty aid : String, ∀ st lim : Option Nat,
      listByActor s ty aid st none lim now
        = listByActor s ty aid st (some (now + 1000 * 60 * 60 * 24)) lim now) ∧
    (∀ a : ListArgs, list s { a with endTime := none } now
        = list s { a with endTime := some (now + 1000 * 60 * 60 * 24) } now) ∧
    (∀ ty aid : String, ∀ st lim : Option Nat, ∀ e : Event,
      e ∈ listByActor s ty aid st none lim now
        → e.occurredAt ≤ now + 1000 * 60 * 60 * 24) ∧
    (∀ a : ListArgs, a.endTime = none →
      (strTruthy a.organizationId = true ∨ strTruthy a.action = true ∨
        (strTruthy a.actorType && strTruthy a.actorId) = true) →
      ∀ e ∈ (list s a now).events, e.occurredAt ≤ now + 1000 * 60 * 60 * 24) ∧
    (∀ a : ListArgs, a.organizationId = none → a.action = none → a.actorType = none →
      list s a now = list s { a with startTime := none, endTime := none } now) := by
  refine ⟨fun ty aid st lim => rfl, fun a => rfl, ?_, ?_, ?_⟩
  · intro ty aid st lim e he
    simp only [listByActor, indexScan] at he
    have h1 := List.mem_of_mem_take he
    rw [List.mem_reverse, List.mem_insertionSort, List.mem_filter] at h1
    have h2 := h1.2
    simp only [Bool.and_eq_true, decide_eq_true_eq] at h2
    simpa using h2.2
  · intro a hNone hIdx e he
    by_cases h1 : strTruthy a.organizationId = true
    · simp only [list, h1, if_true, hNone, Option.getD_none] at he
      have h4 := (List.mem_filter.mp
        ((List.mem_insertionSort _).mp (mem_scanned_of_mem_page he))).2
      simp only [Bool.and_eq_true, decide_eq_true_eq] at h4
      exact h4.2
    · have h1f : strTruthy a.organizationId = false := by
        revert h1
        cases strTruthy a.organizationId <;> simp
      by_cases h2 : strTruthy a.action = true
      · simp only [list, h1f, Bool.false_eq_true, if_false, h2, if_true, hNone,
          Option.getD_none] at he
        have h4 := (List.mem_filter.mp
          ((List.mem_insertionSort _).mp (mem_scanned_of_mem_page he))).2
        simp only [Bool.and_eq_true, decide_eq_true_eq] at h4
        exact h4.2
      · have h2f : strTruthy a.action = false := by
          revert h2
          cases strTruthy a.action <;> simp
        by_cases h3 : (strTruthy a.actorType && strTruthy a.actorId) = true
        · simp only [list, h1f, h2f, Bool.false_eq_true, if_false, h3, if_true, hNone,
            Option.getD_none] at he
          have h4 := (List.mem_filter.mp
            ((List.mem_insertionSort _).mp (mem_scanned_of_mem_page he))).2
          simp only [Bool.and_eq_true, decide_eq_true_eq] at h4
          exact h4.2
        · rcases hIdx with h | h | h
          · exact absurd h h1
          · exact absurd h h2
          · exact absurd h h3
  · intro a horg hact hty
    simp only [list, horg, hact, hty, strTruthy, Bool.false_and, Bool.false_eq_true,
      if_false]

/-- Witness for C6 (amended): a concrete in-range event is returned by
listByActor and by an action-filtered list and obeys the 24-hour bound in
both, and a no-filter list is unchanged by absurd time bounds. -/
theorem C6_endTime_default_witness :
    (eNear ∈ listByActor sNear "user" "u1" none none none 0 ∧
      eNear.occurredAt ≤ 0 + 1000 * 60 * 60 * 24) ∧
    (({ action := some "x.y" } : ListArgs).endTime = none ∧
      strTruthy ({ action := some "x.y" } : ListArgs).action = true ∧
      eNear ∈ (list sNear { action := some "x.y" } 0).events ∧
      eNear.occurredAt ≤ 0 + 1000 * 60 * 60 * 24) ∧
    list sFuture { startTime := some 999, endTime := some 0 } 0 = list sFuture {} 0 :=
  ⟨⟨by decide, (C6_endTime_default sNear 0).2.2.1 "user" "u1" none none eNear (by decide)⟩,
   ⟨rfl, by decide, by decide,
    (C6_endTime_default sNear 0).2.2.2.1 { action := some "x.y" } rfl
      (Or.inr (Or.inl (by decide))) eNear (by decide)⟩,
   (C6_endTime_default sFuture 0).2.2.2.2
     { startTime := some 999, endTime := some 0 } rfl rfl rfl⟩

/-- Helper for C10: a log call whose idempotency key is the empty string
skips the dedup lookup entirely and always inserts. -/
theorem log_empty_key (s : Store) (a : LogArgs) (now : Nat)
    (hk : a.idempotencyKey = some "") :
    log s a now
      = ({ eventId := s.nextId, created := true },
         { events := s.events ++
             [{ id := s.nextId, action := a.action, actor := a.actor
                targets := a.targets, context := a.context, metadata := a.metadata
                organizationId := a.organizationId, occurredAt := a.occurredAt.getD now
                idempotencyKey := a.idempotencyKey
                result := some (a.result.getD .success), error := a.error
                tags := a.tags, version := some (a.version.getD 1) }]
           nextId := s.nextId + 1 }) := by
  have htr : strTruthy a.idempotencyKey = false := by rw [hk]; decide
  simp [log, htr]

/-- C10: an empty-string idempotencyKey never deduplicates: log (and each
element of logBatch) with key "" inserts a fresh event and reports
created = true, for every store, including stores already holding an event
with key "". -/
theorem C10_empty_key_inserts (s : Store) (a : LogArgs) (now : Nat)
    (hk : a.idempotencyKey = some "") :
    (log s a now).1.created = true ∧
    (∃ ev, (log s a now).2.events = s.events ++ [ev] ∧ ev.idempotencyKey = some "") ∧
    (∀ l1 l2 : List LogArgs,
      ((logBatch s (l1 ++ a :: l2) now).1)[l1.length]?.map LogResult.created = some true) := by
  refine ⟨by rw [log_empty_key s a now hk], ⟨_, by rw [log_empty_key s a now hk], hk⟩, ?_⟩
  intro l1
  induction l1 generalizing s with
  | nil =>
    intro l2
    simp only [List.nil_append, logBatch, List.length_nil, List.getElem?_cons_zero,
      Option.map_some]
    rw [log_empty_key s a now hk]
    rfl
  | cons x t ih =>
    intro l2
    simp only [List.cons_append, logBatch, List.length_cons, List.getElem?_cons_succ]
    exact ih (log s x now).2 l2

/-- Log arguments carrying the empty-string idempotency key. -/
def aEmptyKey : LogArgs :=
  { action := "x.y", actor := actorU, targets := [], idempotencyKey := some "" }

/-- Store that already holds one event whose idempotencyKey is "". -/
def sEmptyKey : Store := (log {} aEmptyKey 0).2

/-- Witness for C10: a store already holding an event with key "" still gets
a fresh insert with created = true, both via log and via logBatch. -/
theorem C10_empty_key_inserts_witness :
    aEmptyKey.idempotencyKey = some "" ∧
    (log sEmptyKey aEmptyKey 0).1.created = true ∧
    (∃ ev, (log sEmptyKey aEmptyKey 0).2.events = sEmptyKey.events ++ [ev] ∧
      ev.idempotencyKey = some "") ∧
    ((logBatch sEmptyKey [aEmptyKey] 0).1)[(0 : Nat)]?.map LogResult.created = some true :=
  ⟨rfl, (C10_empty_key_inserts sEmptyKey aEmptyKey 0 rfl).1,
    (C10_empty_key_inserts sEmptyKey aEmptyKey 0 rfl).2.1,
    (C10_empty_key_inserts sEmptyKey aEmptyKey 0 rfl).2.2 [] []⟩

/-- The document a non-deduplicated log call inserts. -/
def insertedEvent (s : Store) (a : LogArgs) (now : Nat) : Event :=
  { id := s.nextId, action := a.action, actor := a.actor
    targets := a.targets, context := a.context, metadata := a.metadata
    organizationId := a.organizationId, occurredAt := a.occurredAt.getD now
    idempotencyKey := a.idempotencyKey
    result := some (a.result.getD .success), error := a.error
    tags := a.tags, version := some (a.version.getD 1) }

/-- Helper: with a truthy key and a hit in the idempotency index, log returns
the existing id, reports created = false and writes nothing. -/
theorem log_found (s : Store) (a : LogArgs) (now : Nat) (e : Event)
    (h : strTruthy a.idempotencyKey = true) (h2 : idemFirst s a.idempotencyKey = some e) :
    log s a now = ({ eventId := e.id, created := false }, s) := by
  simp [log, h, h2]

/-- Helper: with a truthy key and no hit in the idempotency index, log
inserts a fresh document. -/
theorem log_not_found (s : Store) (a : LogArgs) (now : Nat)
    (h : strTruthy a.idempotencyKey = true) (h2 : idemFirst s a.idempotencyKey = none) :
    log s a now = ({ eventId := s.nextId, created := true },
      { events := s.events ++ [insertedEvent s a now], nextId := s.nextId + 1 }) := by
  simp [log, h, h2, insertedEvent]

/-- C1: for an event with a non-empty idempotency key K, logging it twice
into a store that holds at most one event with key K yields the same eventId
both times, the second call reports created = false and leaves the store
unchanged, and afterwards exactly one stored event carries key K. -/
theorem C1_log_twice_idempotent (s : Store) (a : LogArgs) (k : String) (n1 n2 : Nat)
    (hk : a.idempotencyKey = some k) (hne : k ≠ "")
    (huniq : (s.events.filter (fun e => e.idempotencyKey == some k)).length ≤ 1) :
    (log (log s a n1).2 a n2).1.eventId = (log s a n1).1.eventId ∧
    (log (log s a n1).2 a n2).1.created = false ∧
    (log (log s a n1).2 a n2).2 = (log s a n1).2 ∧
    ((log s a n1).2.events.filter (fun e => e.idempotencyKey == some k)).length = 1 := by
  have htr : strTruthy a.idempotencyKey = true := by
    rw [hk]; simp [strTruthy, hne]
  cases hfind : idemFirst s a.idempotencyKey with
  | some e =>
    rw [log_found s a n1 e htr hfind, log_found s a n2 e htr hfind]
    refine ⟨rfl, rfl, rfl, ?_⟩
    unfold idemFirst at hfind
    rw [hk] at hfind
    have hmem := List.mem_of_find?_eq_some hfind
    have hpred := List.find?_some hfind
    have hin : e ∈ s.events.filter (fun e2 => e2.idempotencyKey == some k) :=
      List.mem_filter.mpr ⟨hmem, hpred⟩
    exact Nat.le_antisymm huniq (List.length_pos_of_mem hin)
  | none =>
    rw [log_not_found s a n1 htr hfind]
    have hfind2 : idemFirst
        { events := s.events ++ [insertedEvent s a n1], nextId := s.nextId + 1 }
          a.idempotencyKey = some (insertedEvent s a n1) := by
      unfold idemFirst at hfind ⊢
      rw [List.find?_append, hfind, Option.none_or]
      exact List.find?_cons_of_pos _ (by simp [insertedEvent])
    rw [log_found _ a n2 _ htr hfind2]
    refine ⟨rfl, rfl, rfl, ?_⟩
    unfold idemFirst at hfind
    rw [hk] at hfind
    have hnil : s.events.filter (fun e2 => e2.idempotencyKey == some k) = [] :=
      List.filter_eq_nil_iff.mpr (List.find?_eq_none.mp hfind)
    simp [List.filter_append, hnil, insertedEvent, hk]

/-- Log arguments carrying the idempotency key "k1". -/
def aKeyed : LogArgs :=
  { action := "x.y", actor := actorU, targets := [], idempotencyKey := some "k1" }

/-- Witness for C1: logging a concrete event with key "k1" twice into the
empty store. -/
theorem C1_log_twice_idempotent_witness :
    aKeyed.idempotencyKey = some "k1" ∧ "k1" ≠ "" ∧
    ((({} : Store)).events.filter (fun e => e.idempotencyKey == some "k1")).length ≤ 1 ∧
    (log (log {} aKeyed 0).2 aKeyed 1).1.eventId = (log {} aKeyed 0).1.eventId ∧
    (log (log {} aKeyed 0).2 aKeyed 1).1.created = false ∧
    (log (log {} aKeyed 0).2 aKeyed 1).2 = (log {} aKeyed 0).2 ∧
    ((log {} aKeyed 0).2.events.filter (fun e => e.idempotencyKey == some "k1")).length = 1 :=
  ⟨rfl, by decide, by decide,
    C1_log_twice_idempotent {} aKeyed "k1" 0 1 rfl (by decide) (by decide)⟩

/-- C8: get looks an event up by id and reports the unique stored event with
that id, or none when no stored event has it; the operation is total (it is a
plain lookup, never a fault). -/
theorem C8_get_lookup (s : Store) (i : Nat)
    (hnd : (s.events.map Event.id).Nodup) :
    (∀ e : Event, get s i = some e ↔ (e ∈ s.events ∧ e.id = i)) ∧
    (get s i = none ↔ ∀ e ∈ s.events, e.id ≠ i) := by
  have hdef : get s i = s.events.find? (fun e => e.id == i) := rfl
  constructor
  · intro e
    constructor
    · intro h
      rw [hdef] at h
      exact ⟨List.mem_of_find?_eq_some h, by simpa using List.find?_some h⟩
    · rintro ⟨hmem, hid⟩
      rw [hdef]
      cases hfind : s.events.find? (fun e2 => e2.id == i) with
      | none =>
        exact absurd (by simp [hid]) (List.find?_eq_none.mp hfind e hmem)
      | some e2 =>
        have hm2 := List.mem_of_find?_eq_some hfind
        have hp2 : e2.id = i := by simpa using List.find?_some hfind
        rw [List.inj_on_of_nodup_map hnd hm2 hmem (by rw [hp2, hid])]
  · rw [hdef, List.find?_eq_none]
    constructor
    · intro h e he
      simpa using h e he
    · intro h e he
      simpa using h e he

/-- Witness for C8 at a concrete store: id 5 is absent, so get returns none. -/
theorem C8_get_lookup_witness :
    (sAsc.events.map Event.id).Nodup ∧
    (get sAsc 5 = none ↔ ∀ e ∈ sAsc.events, e.id ≠ 5) :=
  ⟨by decide, (C8_get_lookup sAsc 5 (by decide)).2⟩

/-- First-match lookup of a counter key, defaulting to 0 (JS m[k] ?? 0). -/
def lookupNat (m : List (String × Nat)) (k : String) : Nat :=
  (lookupA m k).getD 0

/-- Bumping a counter key adds one to the sum of all counter values. -/
theorem sumVals_bump (m : List (String × Nat)) (k : String) :
    sumVals (bump m k) = sumVals m + 1 := by
  induction m with
  | nil => rfl
  | cons p t ih =>
    obtain ⟨k2, v⟩ := p
    by_cases h : k2 == k
    · simp [bump, h, sumVals]
      omega
    · simp only [bump, h, if_false, Bool.false_eq_true]
      simp [sumVals] at ih ⊢
      omega

/-- Folding bumps over a list of events adds the list length to the counter
sum. -/
theorem sumVals_foldl (evs : List Event) (f : Event → String)
    (m : List (String × Nat)) :
    sumVals (evs.foldl (fun acc e => bump acc (f e)) m) = sumVals m + evs.length := by
  induction evs generalizing m with
  | nil => simp
  | cons e t ih =>
    simp only [List.foldl_cons, List.length_cons, ih, sumVals_bump]
    omega

/-- Bumping key k2 changes the counter at k exactly when k2 = k. -/
theorem lookupNat_bump (m : List (String × Nat)) (k2 k : String) :
    lookupNat (bump m k2) k = lookupNat m k + (if k2 == k then 1 else 0) := by
  induction m with
  | nil =>
    by_cases h : k2 = k
    · subst h
      simp [bump, lookupNat, lookupA]
    · simp [bump, lookupNat, lookupA, h, Ne.symm h]
  | cons p t ih =>
    obtain ⟨k3, v⟩ := p
    simp only [bump]
    by_cases h3 : k3 = k2
    · subst h3
      by_cases hk : k3 = k
      · subst hk
        simp [lookupNat, lookupA]
      · simp [lookupNat, lookupA, hk]
    · by_cases hk : k3 = k
      · subst hk
        have hnk : ¬ k2 = k3 := fun hc => h3 hc.symm
        simp [lookupNat, lookupA, h3, hnk]
      · simp only [beq_iff_eq, h3, if_false]
        simp only [lookupNat, lookupA, beq_iff_eq, hk, if_false] at ih ⊢
        exact ih

/-- Folding bumps counts, per key, the events mapped to that key. -/
theorem lookupNat_foldl (evs : List Event) (f : Event → String)
    (m : List (String × Nat)) (k : String) :
    lookupNat (evs.foldl (fun acc e => bump acc (f e)) m) k
      = lookupNat m k + evs.countP (fun e => f e == k) := by
  induction evs generalizing m with
  | nil => simp
  | cons e t ih =>
    simp only [List.foldl_cons, List.countP_cons, ih, lookupNat_bump]
    by_cases h : f e == k
    · simp [h]
      omega
    · simp [h]

/-- C7: every getStats call returns frequency maps each of whose values sum
to totalEvents, and the count recorded under the key "success" is exactly the
number of scanned events whose result is missing or success. -/
theorem C7_getStats_sums (s : Store) (a : StatsArgs) (now : Nat) :
    sumVals (getStats s a now).eventsByAction = (getStats s a now).totalEvents ∧
    sumVals (getStats s a now).eventsByActorType = (getStats s a now).totalEvents ∧
    sumVals (getStats s a now).eventsByResult = (getStats s a now).totalEvents ∧
    lookupNat (getStats s a now).eventsByResult "success"
      = (statsEvents s a now).countP
          (fun e => e.result.getD .success == AuditResult.success) := by
  refine ⟨?_, ?_, ?_, ?_⟩
  · simp only [getStats]
    rw [sumVals_foldl]
    simp [sumVals]
  · simp only [getStats]
    rw [sumVals_foldl]
    simp [sumVals]
  · simp only [getStats]
    rw [sumVals_foldl]
    simp [sumVals]
  · simp only [getStats, lookupNat_foldl]
    have h0 : lookupNat [] "success" = 0 := rfl
    rw [h0, Nat.zero_add]
    apply List.countP_congr
    intro e _
    cases hres : e.result.getD .success <;> simp [AuditResult.key, hres]

/-- Looking a key up after a JavaScript assignment: the assigned key now maps
to the assigned value, all other keys are untouched. -/
theorem lookupA_setPair {α : Type} (m : List (String × α)) (k1 : String) (v1 : α)
    (k : String) :
    lookupA (setPair m (k1, v1)) k = if k == k1 then some v1 else lookupA m k := by
  induction m with
  | nil =>
    by_cases h : k = k1
    · subst h
      simp [setPair, lookupA]
    · simp [setPair, lookupA, h, Ne.symm h]
  | cons p t ih =>
    obtain ⟨k2, v2⟩ := p
    simp only [setPair]
    by_cases h2 : k2 = k1
    · subst h2
      by_cases hk : k = k2
      · subst hk
        simp [lookupA]
      · simp [lookupA, hk, Ne.symm hk]
    · by_cases hk : k2 = k
      · subst hk
        simp [lookupA, h2, fun hc => h2 (id (Eq.symm hc) : k2 = k1)]
      · simp [lookupA, h2, hk, ih]

/-- A key absent from an association list looks up to none. -/
theorem lookupA_not_mem {α : Type} (m : List (String × α)) (k : String)
    (h : k ∉ m.map Prod.fst) : lookupA m k = none := by
  induction m with
  | nil => rfl
  | cons p t ih =>
    obtain ⟨k2, v⟩ := p
    simp only [List.map_cons, List.mem_cons] at h
    push_neg at h
    simp [lookupA, Ne.symm h.1, ih h.2]

/-- Shallow-merge semantics of the JavaScript spread: keys of b (with
duplicate-free keys, as any JS object) take their b value, all other keys
keep their a value. -/
theorem lookupA_jsMerge {α : Type} (a b : List (String × α)) (k : String)
    (hnd : (b.map Prod.fst).Nodup) :
    lookupA (jsMerge a b) k = (lookupA b k).or (lookupA a k) := by
  induction b generalizing a with
  | nil => simp [jsMerge, lookupA]
  | cons p t ih =>
    obtain ⟨k1, v1⟩ := p
    simp only [List.map_cons, List.nodup_cons] at hnd
    have hmerge : jsMerge a ((k1, v1) :: t) = jsMerge (setPair a (k1, v1)) t := rfl
    rw [hmerge, ih _ hnd.2]
    by_cases h : k = k1
    · subst h
      rw [lookupA_not_mem t k hnd.1]
      simp [lookupA, lookupA_setPair]
    · simp [lookupA, lookupA_setPair, h, Ne.symm h]

/-- Mapping a patch that only rewrites the document with id i over a store
whose other documents have different ids rewrites exactly that document. -/
theorem map_patch (pre post : List Event) (e : Event) (i : Nat) (f : Event → Event)
    (hpre : ∀ x ∈ pre, x.id ≠ i) (hpost : ∀ x ∈ post, x.id ≠ i) (he : e.id = i) :
    (pre ++ e :: post).map (fun x => if x.id == i then f x else x) = pre ++ f e :: post := by
  rw [List.map_append, List.map_cons]
  have h1 : pre.map (fun x => if x.id == i then f x else x) = pre.map id :=
    List.map_congr_left (fun x hx => by simp [hpre x hx])
  have h2 : post.map (fun x => if x.id == i then f x else x) = post.map id :=
    List.map_congr_left (fun x hx => by simp [hpost x hx])
  rw [h1, h2, List.map_id, List.map_id]
  simp [he]

/-- C9: updateEvent on an existing event shallow-merges supplied metadata
(supplied keys overwrite, unsupplied keys survive), replaces tags wholesale
when supplied, is a no-op when neither is supplied, and leaves the event's
other fields and every other stored event untouched. -/
theorem C9_updateEvent_frame (s : Store) (pre post : List Event) (e : Event) (i : Nat)
    (md : Option JRec) (tg : Option (List String))
    (hs : s.events = pre ++ e :: post) (hi : e.id = i)
    (hnd : (s.events.map Event.id).Nodup) :
    ∃ s2 e2,
      updateEvent s i md tg = some s2 ∧
      s2.nextId = s.nextId ∧
      s2.events = pre ++ e2 :: post ∧
      e2.metadata = (match md with
        | some m => some (jsMerge (e.metadata.getD []) m)
        | none => e.metadata) ∧
      e2.tags = (match tg with | some t => some t | none => e.tags) ∧
      e2.id = e.id ∧ e2.action = e.action ∧ e2.occurredAt = e.occurredAt ∧
      e2.actor = e.actor ∧ e2.targets = e.targets ∧ e2.context = e.context ∧
      e2.organizationId = e.organizationId ∧ e2.idempotencyKey = e.idempotencyKey ∧
      e2.result = e.result ∧ e2.error = e.error ∧ e2.version = e.version ∧
      (md = none → tg = none → s2 = s) ∧
      (∀ m, md = some m → (m.map Prod.fst).Nodup →
        ∀ k2, lookupA (e2.metadata.getD []) k2
          = (lookupA m k2).or (lookupA (e.metadata.getD []) k2)) := by
  have hmap := hnd
  rw [hs, List.map_append, List.map_cons, List.nodup_append] at hmap
  obtain ⟨-, hnd2, hdisj⟩ := hmap
  rw [List.nodup_cons] at hnd2
  have hpost : ∀ x ∈ post, x.id ≠ i := by
    intro x hx hc
    have hmem := List.mem_map_of_mem Event.id hx
    rw [hc, ← hi] at hmem
    exact hnd2.1 hmem
  have hpre : ∀ x ∈ pre, x.id ≠ i := by
    intro x hx hc
    have hmem := List.mem_map_of_mem Event.id hx
    rw [hc, ← hi] at hmem
    exact hdisj hmem (List.mem_cons_self _ _)
  have hget : get s i = some e := by
    have hdef : get s i = s.events.find? (fun x => x.id == i) := rfl
    rw [hdef, hs, List.find?_append,
      List.find?_eq_none.mpr (fun x hx => by simp [hpre x hx]), Option.none_or]
    exact List.find?_cons_of_pos _ (by simp [hi])
  cases md with
  | none =>
    cases tg with
    | none =>
      refine ⟨s, e, by simp [updateEvent], rfl, hs, rfl, rfl, rfl, rfl, rfl, rfl, rfl,
        rfl, rfl, rfl, rfl, rfl, rfl, fun _ _ => rfl, ?_⟩
      intro m hm
      exact Option.noConfusion hm
    | some t =>
      refine ⟨{ s with events := pre ++ { e with tags := some t } :: post },
        { e with tags := some t }, ?_, rfl, rfl, rfl, rfl, rfl, rfl, rfl, rfl, rfl,
        rfl, rfl, rfl, rfl, rfl, rfl, ?_, ?_⟩
      · have hev : s.events.map
            (fun x => if x.id == i then { x with tags := some t } else x)
              = pre ++ { e with tags := some t } :: post := by
          rw [hs]
          exact map_patch pre post e i _ hpre hpost hi
        simp only [updateEvent, hget, Option.isNone_none, Option.isNone_some,
          Bool.true_and, Bool.false_eq_true, if_false, hev]
      · intro _ hc
        exact Option.noConfusion hc
      · intro m hm
        exact Option.noConfusion hm
  | some m =>
    cases tg with
    | none =>
      refine ⟨{ s with events :=
          pre ++ { e with metadata := some (jsMerge (e.metadata.getD []) m) } :: post },
        { e with metadata := some (jsMerge (e.metadata.getD []) m) },
        ?_, rfl, rfl, rfl, rfl, rfl, rfl, rfl, rfl, rfl, rfl, rfl, rfl, rfl, rfl, rfl,
        ?_, ?_⟩
      · have hev : s.events.map
            (fun x => if x.id == i then
              { x with metadata := some (jsMerge (e.metadata.getD []) m) } else x)
              = pre ++ { e with metadata := some (jsMerge (e.metadata.getD []) m) } :: post := by
          rw [hs]
          exact map_patch pre post e i _ hpre hpost hi
        simp only [updateEvent, hget, Option.isNone_none, Option.isNone_some,
          Bool.and_true, Bool.false_and, Bool.false_eq_true, if_false, hev]
      · intro hc
        exact Option.noConfusion hc
      · intro m2 hm2 hnd3 k2
        injection hm2 with hm2e
        subst hm2e
        exact lookupA_jsMerge _ _ _ hnd3
    | some t =>
      refine ⟨{ s with events := pre ++ { e with metadata := some (jsMerge (e.metadata.getD []) m), tags := some t } :: post }, { e with metadata := some (jsMerge (e.metadata.getD []) m), tags := some t }, ?_, rfl, rfl, rfl, rfl, rfl, rfl, rfl, rfl, rfl, rfl, rfl, rfl, rfl, rfl, rfl, ?_, ?_⟩
      · have hev : s.events.map (fun x => if x.id == i then { x with metadata := some (jsMerge (e.metadata.getD []) m), tags := some t } else x) = pre ++ { e with metadata := some (jsMerge (e.metadata.getD []) m), tags := some t } :: post := by
          rw [hs]
          exact map_patch pre post e i _ hpre hpost hi
        simp only [updateEvent, hget, Option.isNone_none, Option.isNone_some,
          Bool.and_false, Bool.false_and, Bool.false_eq_true, if_false, hev]
      · intro hc
        exact Option.noConfusion hc
      · intro m2 hm2 hnd3 k2
        injection hm2 with hm2e
        subst hm2e
        exact lookupA_jsMerge _ _ _ hnd3

/-- The single document stored in sOne. -/
def eOne : Event :=
  { id := 0, action := "b.two", occurredAt := 5, actor := actorU, targets := []
    result := some .success, version := some 1 }

/-- Concrete metadata patch for the C9 witness. -/
def mdW : JRec := [("k1", JVal.jstr "v1")]

/-- Concrete tags replacement for the C9 witness. -/
def tgW : List String := ["t1"]

/-- Witness for C9 at a concrete one-event store, patching both metadata and
tags. -/
theorem C9_updateEvent_frame_witness :
    sOne.events = [] ++ eOne :: [] ∧ eOne.id = 0 ∧ (sOne.events.map Event.id).Nodup ∧
    ∃ s2 e2,
      updateEvent sOne 0 (some mdW) (some tgW) = some s2 ∧
      s2.nextId = sOne.nextId ∧
      s2.events = [] ++ e2 :: [] ∧
      e2.metadata = some (jsMerge (eOne.metadata.getD []) mdW) ∧
      e2.tags = some tgW ∧
      e2.id = eOne.id ∧ e2.action = eOne.action ∧ e2.occurredAt = eOne.occurredAt ∧
      e2.actor = eOne.actor ∧ e2.targets = eOne.targets ∧ e2.context = eOne.context ∧
      e2.organizationId = eOne.organizationId ∧ e2.idempotencyKey = eOne.idempotencyKey ∧
      e2.result = eOne.result ∧ e2.error = eOne.error ∧ e2.version = eOne.version ∧
      (some mdW = none → some tgW = none → s2 = sOne) ∧
      (∀ m, some mdW = some m → (m.map Prod.fst).Nodup →
        ∀ k2, lookupA (e2.metadata.getD []) k2
          = (lookupA m k2).or (lookupA (eOne.metadata.getD []) k2)) :=
  ⟨by decide, rfl, by decide,
    C9_updateEvent_frame sOne [] [] eOne 0 (some mdW) (some tgW) (by decide) rfl (by decide)⟩

/-- A bare event of organization o (none when o is empty) with the given id
and time, used to build bulk stores. -/
def mkEv (i t : Nat) : Event :=
  { id := i, action := "x.y", occurredAt := t, actor := actorU, targets := []
    result := some .success, version := some 1 }

/-- Store holding 101 events at time 10 (ids 0..100) followed by one event at
time 5 (id 101): the old event sits beyond the unscoped fetch window. -/
def sStuck : Store :=
  { events := ((List.range 101).map (fun i => mkEv i 10)) ++ [mkEv 101 5], nextId := 102 }

/-- C5 counterexample: unscoped deleteOldEvents(olderThan 10, batchSize 100)
on sStuck deletes nothing, reports hasMore = true and leaves the store
unchanged, while an event with occurredAt < 10 is stored; since the state is
a fixed point with hasMore true, repeating until hasMore = false never
terminates and the old event is never removed. -/
theorem C5_counterexample :
    deleteOldEvents sStuck { olderThan := 10, batchSize := some 100 }
      = ({ deleted := 0, hasMore := true }, sStuck) ∧
    mkEv 101 5 ∈ sStuck.events ∧ (mkEv 101 5).occurredAt < 10 := by
  refine ⟨by decide, by decide, by decide⟩

/-- The predicate the scoped retention branch ranges over: events of the
given organization occurring before the cutoff. -/
def oldPred (o : String) (t : Nat) : Event → Bool :=
  fun e => e.organizationId == some o && decide (e.occurredAt < t)

/-- Number of stored events the scoped retention call targets. -/
def matchCount (s : Store) (o : String) (t : Nat) : Nat :=
  (s.events.filter (oldPred o t)).length

/-- Repeated invocation of the scoped retention job until hasMore is false,
with explicit fuel; the flag is false exactly when a call reported
hasMore = false within the fuel bound. -/
def deleteLoop (t : Nat) (o : String) (b : Nat) : Nat → Store → Store × Bool
  | 0, s => (s, true)
  | fuel + 1, s =>
    let r := deleteOldEvents s { olderThan := t, organizationId := some o, batchSize := some b }
    if r.1.hasMore then deleteLoop t o b fuel r.2 else (r.2, false)

/-- Sequentially deleting a batch of documents removes exactly the documents
bearing one of the batch ids, and leaves the fresh-id counter alone. -/
theorem foldl_dbDelete (ds : List Event) (s : Store) :
    (ds.foldl (fun st ev => dbDelete st ev.id) s).events
      = s.events.filter (fun e => ds.all (fun d => !(d.id == e.id))) ∧
    (ds.foldl (fun st ev => dbDelete st ev.id) s).nextId = s.nextId := by
  induction ds generalizing s with
  | nil => simp
  | cons d ds2 ih =>
    rw [List.foldl_cons]
    refine ⟨?_, (ih (dbDelete s d.id)).2⟩
    rw [(ih (dbDelete s d.id)).1]
    show ((s.events.filter (fun e => !(e.id == d.id))).filter _) = _
    rw [List.filter_filter]
    apply List.filter_congr
    intro x _
    by_cases h : x.id = d.id
    · simp [h]
    · have h1 : (x.id == d.id) = false := by simpa using h
      have h2 : (d.id == x.id) = false := by simpa using Ne.symm h
      simp [h1, h2]

/-- Shape of a scoped deleteOldEvents call: fetch the matching index scan,
delete its first batchSize elements, peek one extra row for hasMore. -/
theorem deleteOld_scoped_eq (s : Store) (o : String) (t b : Nat) (ho : o ≠ "") :
    deleteOldEvents s { olderThan := t, organizationId := some o, batchSize := some b }
      = ({ deleted := ((indexScan (s.events.filter (oldPred o t))).take b).length,
           hasMore := decide (((indexScan (s.events.filter (oldPred o t))).take (b + 1)).length > b) },
         ((indexScan (s.events.filter (oldPred o t))).take b).foldl
           (fun st ev => dbDelete st ev.id) s) := by
  have htr : strTruthy (some o) = true := by simp [strTruthy, ho]
  have hmin : min b (b + 1) = b := Nat.min_eq_left (Nat.le_succ b)
  simp only [deleteOldEvents, htr, if_true, oldPred, Option.getD_some, List.take_take, hmin]
  rfl

/-- Behaviour of one scoped deleteOldEvents call: hasMore peeks whether more
than batchSize events match, the non-matching events and the id counter are
untouched, the matching count drops by batchSize, ids stay distinct, and once
at most batchSize events match the call removes all of them. -/
theorem deleteOld_scoped_call (s : Store) (o : String) (t b : Nat) (ho : o ≠ "")
    (hnd : (s.events.map Event.id).Nodup) :
    (deleteOldEvents s { olderThan := t, organizationId := some o, batchSize := some b }).1.hasMore
      = decide (b < matchCount s o t) ∧
    (deleteOldEvents s { olderThan := t, organizationId := some o, batchSize := some b }).2.nextId
      = s.nextId ∧
    ((deleteOldEvents s { olderThan := t, organizationId := some o, batchSize := some b }).2.events.map Event.id).Nodup ∧
    (deleteOldEvents s { olderThan := t, organizationId := some o, batchSize := some b }).2.events.filter (fun e => !(oldPred o t e))
      = s.events.filter (fun e => !(oldPred o t e)) ∧
    matchCount (deleteOldEvents s { olderThan := t, organizationId := some o, batchSize := some b }).2 o t
      = matchCount s o t - b ∧
    (matchCount s o t ≤ b →
      (deleteOldEvents s { olderThan := t, organizationId := some o, batchSize := some b }).2.events
        = s.events.filter (fun e => !(oldPred o t e))) := by
  rw [deleteOld_scoped_eq s o t b ho]
  dsimp only
  set m := s.events.filter (oldPred o t) with hm
  set L := indexScan m with hL
  have hperm : List.Perm L m := List.perm_insertionSort _ m
  have hlenL : L.length = m.length := hperm.length_eq
  have hmemL : ∀ d ∈ L, d ∈ s.events ∧ oldPred o t d = true := by
    intro d hd
    have hdm := hperm.mem_iff.mp hd
    exact ⟨(List.mem_filter.mp hdm).1, (List.mem_filter.mp hdm).2⟩
  have hndm : (m.map Event.id).Nodup :=
    List.Nodup.sublist ((List.filter_sublist _).map Event.id) hnd
  have hndL : (L.map Event.id).Nodup := (hperm.map Event.id).symm.nodup hndm
  have hallc : ∀ x ∈ s.events, oldPred o t x = false →
      ((L.take b).all (fun d => !(d.id == x.id))) = true := by
    intro x hx hpx
    rw [List.all_eq_true]
    intro d hd
    obtain ⟨hds, hdp⟩ := hmemL d (List.mem_of_mem_take hd)
    have hne : d.id ≠ x.id := by
      intro hc
      have hdx : d = x := List.inj_on_of_nodup_map hnd hds hx hc
      rw [hdx, hpx] at hdp
      exact Bool.noConfusion hdp
    simpa using hne
  refine ⟨?_, (foldl_dbDelete _ s).2, ?_, ?_, ?_, ?_⟩
  · rw [decide_eq_decide, List.length_take, hlenL]
    simp only [matchCount, ← hm]
    omega
  · rw [(foldl_dbDelete _ s).1]
    exact List.Nodup.sublist ((List.filter_sublist _).map Event.id) hnd
  · rw [(foldl_dbDelete _ s).1, List.filter_filter]
    apply List.filter_congr
    intro x hx
    by_cases hp : oldPred o t x = true
    · simp [hp]
    · have hpf : oldPred o t x = false := by
        revert hp
        cases oldPred o t x <;> simp
      simp [hpf, hallc x hx hpf]
  · simp only [matchCount]
    rw [(foldl_dbDelete _ s).1, List.filter_filter]
    have hstep : s.events.filter
        (fun a => oldPred o t a && (L.take b).all (fun d => !(d.id == a.id)))
          = m.filter (fun a => (L.take b).all (fun d => !(d.id == a.id))) := by
      rw [hm]
      rw [List.filter_filter]
      apply List.filter_congr
      intro x _
      exact Bool.and_comm _ _
    rw [hstep]
    have hpermf := hperm.filter (fun a => (L.take b).all (fun d => !(d.id == a.id)))
    rw [← hpermf.length_eq]
    have key : ∀ P : Event → Bool, (∀ d ∈ L.take b, P d = false) →
        (∀ d ∈ L.drop b, P d = true) → (L.filter P).length = L.length - b := by
      intro P h1 h2
      have hsplitf : L.filter P = (L.take b).filter P ++ (L.drop b).filter P := by
        conv_lhs => rw [← List.take_append_drop b L]
        rw [List.filter_append]
      rw [hsplitf, List.filter_eq_nil_iff.mpr (fun d hd => by simp [h1 d hd]),
        List.filter_eq_self.mpr h2]
      simp
    rw [key _ ?_ ?_, hlenL]
    · intro d hd
      cases hv : (L.take b).all (fun d2 => !(d2.id == d.id)) with
      | false => rfl
      | true =>
        have := List.all_eq_true.mp hv d hd
        simp at this
    · intro d hd
      rw [List.all_eq_true]
      intro d2 hd2
      have hndsplit := hndL
      rw [← List.take_append_drop b L, List.map_append] at hndsplit
      have hdisj := List.disjoint_of_nodup_append hndsplit
      have hne : d2.id ≠ d.id := by
        intro hc
        exact hdisj (List.mem_map_of_mem _ hd2) (hc ▸ List.mem_map_of_mem _ hd)
      simpa using hne
  · intro hle
    simp only [matchCount, ← hm] at hle
    rw [(foldl_dbDelete _ s).1]
    apply List.filter_congr
    intro x hx
    by_cases hp : oldPred o t x = true
    · have hxm : x ∈ m := List.mem_filter.mpr ⟨hx, hp⟩
      have hxL : x ∈ L := hperm.mem_iff.mpr hxm
      have htb : L.take b = L := List.take_of_length_le (by rw [hlenL]; exact hle)
      have hfalse : (L.take b).all (fun d => !(d.id == x.id)) = false := by
        rw [htb]
        cases hv : L.all (fun d => !(d.id == x.id)) with
        | false => rfl
        | true =>
          have := List.all_eq_true.mp hv x hxL
          simp at this
      rw [hfalse, hp]
      rfl
    · have hpf : oldPred o t x = false := by
        revert hp
        cases oldPred o t x <;> simp
      simp [hpf, hallc x hx hpf]

/-- C5 (amended): with an organizationId supplied (non-empty) and a positive
batch size, repeatedly invoking deleteOldEvents until it reports
hasMore = false terminates (within matchCount + 1 calls), removes every
stored event of that organization with occurredAt < T, and leaves every other
event and the id counter untouched.  (The unscoped case fails: see the
counterexample.) -/
theorem C5_deleteOldEvents_scoped (o : String) (t b fuel : Nat) (s : Store)
    (ho : o ≠ "") (hb : 0 < b) (hnd : (s.events.map Event.id).Nodup)
    (hfuel : matchCount s o t < fuel) :
    deleteLoop t o b fuel s
      = ({ s with events := s.events.filter (fun e => !(oldPred o t e)) }, false) := by
  induction fuel generalizing s with
  | zero => omega
  | succ f ih =>
    obtain ⟨h1, h2, h3, h4, h5, h6⟩ := deleteOld_scoped_call s o t b ho hnd
    by_cases hle : matchCount s o t ≤ b
    · have hMore : (deleteOldEvents s
          { olderThan := t, organizationId := some o, batchSize := some b }).1.hasMore
            = false := by
        rw [h1]
        simp
        omega
      simp only [deleteLoop, hMore, Bool.false_eq_true, if_false]
      have heta : (deleteOldEvents s
          { olderThan := t, organizationId := some o, batchSize := some b }).2
            = { events := (deleteOldEvents s
                  { olderThan := t, organizationId := some o, batchSize := some b }).2.events,
                nextId := (deleteOldEvents s
                  { olderThan := t, organizationId := some o, batchSize := some b }).2.nextId } := rfl
      rw [heta, h6 hle, h2]
    · have hlt : b < matchCount s o t := by omega
      have hMore : (deleteOldEvents s
          { olderThan := t, organizationId := some o, batchSize := some b }).1.hasMore
            = true := by
        rw [h1]
        simpa using hlt
      simp only [deleteLoop, hMore, if_true]
      have hfuel2 : matchCount (deleteOldEvents s
          { olderThan := t, organizationId := some o, batchSize := some b }).2 o t < f := by
        rw [h5]
        omega
      rw [ih _ h3 hfuel2, h4, h2]

/-- An event of organization "org_1" with the given id and time. -/
def mkEvO (i t : Nat) : Event :=
  { id := i, action := "x.y", occurredAt := t, actor := actorU, targets := []
    organizationId := some "org_1", result := some .success, version := some 1 }

/-- Store with two old org_1 events and one recent org_1 event. -/
def sRet : Store :=
  { events := [mkEvO 0 1, mkEvO 1 2, mkEvO 2 50], nextId := 3 }

/-- Witness for C5 (amended): batch size 1, cutoff 10, three stored events,
loop fuel 3: the two old events are removed, the recent one survives. -/
theorem C5_deleteOldEvents_scoped_witness :
    "org_1" ≠ "" ∧ 0 < 1 ∧ (sRet.events.map Event.id).Nodup ∧
    matchCount sRet "org_1" 10 < 3 ∧
    deleteLoop 10 "org_1" 1 3 sRet
      = ({ sRet with events := sRet.events.filter (fun e => !(oldPred "org_1" 10 e)) }, false) :=
  ⟨by decide, by decide, by decide, by decide,
    C5_deleteOldEvents_scoped "org_1" 10 1 3 sRet (by decide) (by decide) (by decide) (by decide)⟩
